import Mathlib

/-!
Shallow embedding of the penumbra job-orchestration layer (src/API.ts and the
worker-facing surface) together with proofs about its batch coordinator,
job registry, completion event bus and text/URI conversion.

Conventions of the embedding:
* JavaScript numbers that are only ever non-negative integers here (job ids,
  sizes, byte lengths, ports) are `Nat`.
* A `stream` field is either a live readable stream (represented by an
  abstract numeric handle) or a fully materialized `ArrayBuffer`
  (represented by its byte length); this mirrors the runtime
  `instanceof` probing of API.ts.
* JS truthiness of an optional numeric field (`undefined` and `0` are both
  falsy) is the `numTruthy` predicate.
* The mutable module state of API.ts (the `jobID` counter and the number of
  remote-stream channel pairs that have been constructed) is threaded
  explicitly as `CoordState`; a thrown exception leaves the mutations that
  already happened in place, exactly as in JS.
* The platform capability probe `writableStreamsSupported` is a boolean
  parameter `wss`.
-/

namespace Penumbra

/-- JS truthiness of an optional numeric field: `undefined` and `0` are falsy. -/
def numTruthy : Option Nat → Bool
  | none => false
  | some n => n != 0

/-- A `stream` value of API.ts: a live ReadableStream (abstract handle) or a
fully materialized ArrayBuffer (byte length). -/
inductive StreamRep where
  | readable (tag : Nat)
  | buffered (byteLength : Nat)
deriving DecidableEq, Repr

/-- `stream instanceof ArrayBuffer` test of API.ts. -/
def StreamRep.isBuffered : StreamRep → Bool
  | .readable _ => false
  | .buffered _ => true

/-- PenumbraFile of src/types: id, stream, size, mimetype and a path-like
file-name hint (standing for the path / name metadata fields). -/
structure PenumbraFile where
  id : Option Nat
  stream : StreamRep
  size : Option Nat
  mimetype : Option String
  path : Option String
deriving DecidableEq, Repr

/-- RemoteResource of src/types: the url may be absent (API.ts probes
`'url' in resource`), plus the metadata fields spread into results. -/
structure RemoteResource where
  url : Option String
  mimetype : Option String
  path : Option String
deriving DecidableEq, Repr

/-- The errors thrown by the batch coordinator of API.ts, tagged with the
operation name appearing in the message. -/
inductive PenumbraErr where
  | argumentMissing (op : String)
  | resourceMissingURL (op : String)
  | streamsOnly
  | sizeUndetermined (op : String)
  | tooLarge (op : String)
deriving DecidableEq, Repr

/-- The process-wide mutable state of API.ts: the `jobID` counter and a count
of remote-stream channel pairs constructed so far (each
RemoteReadableStream / RemoteWritableStream is one transferable pair). -/
structure CoordState where
  jobID : Nat
  channelPairs : Nat
deriving DecidableEq, Repr

/-- Record the new value of the job id counter. -/
def setJobID (st : CoordState) (j : Nat) : CoordState :=
  ⟨j, st.channelPairs⟩

/-- Record the construction of `n` further channel pairs. -/
def addChannels (st : CoordState) (n : Nat) : CoordState :=
  ⟨st.jobID, st.channelPairs + n⟩

/-- Maximum allowed resource size for encrypt/decrypt on the main thread
(16 MiB), from API.ts. -/
def MAX_ALLOWED_SIZE_MAIN_THREAD : Nat := 16 * 1024 * 1024

/-- Result of the id/size collection loop (`files.forEach`) of
encryptJob/decryptJob: the ids and sizes pushed so far, the final value of
the `jobID` counter, and the exception, if one was thrown. -/
structure CollectResult where
  ids : List Nat
  sizes : List Nat
  nextID : Nat
  err : Option PenumbraErr
deriving DecidableEq, Repr

/-- The `files.forEach` loop of encryptJob: every file gets
`file.id = jobID++` (a caller-supplied id is overwritten), then a falsy
`size` aborts the loop with the size-undetermined error. -/
def collectEncrypt : List PenumbraFile → Nat → CollectResult
  | [], j => ⟨[], [], j, none⟩
  | f :: fs, j =>
    if numTruthy f.size then
      let r := collectEncrypt fs (j + 1)
      ⟨j :: r.ids, f.size.getD 0 :: r.sizes, r.nextID, r.err⟩
    else
      ⟨[j], [], j + 1, some (PenumbraErr.sizeUndetermined "encrypt")⟩

/-- The `files.forEach` loop of decryptJob (streaming path): every file gets
`file.id = file.id || jobID++` (a truthy caller-supplied id is kept, an
absent or zero id draws from the counter), then a falsy `size` aborts the
loop with the size-undetermined error. -/
def collectDecrypt : List PenumbraFile → Nat → CollectResult
  | [], j => ⟨[], [], j, none⟩
  | f :: fs, j =>
    let idNext : Nat × Nat := if numTruthy f.id then (f.id.getD 0, j) else (j, j + 1)
    if numTruthy f.size then
      let r := collectDecrypt fs idNext.2
      ⟨idNext.1 :: r.ids, f.size.getD 0 :: r.sizes, r.nextID, r.err⟩
    else
      ⟨[idNext.1], [], idNext.2, some (PenumbraErr.sizeUndetermined "decrypt")⟩

/-- The running-total ceiling check of encryptJob's buffered fallback:
`totalSize += size; if (totalSize > MAX) throw`. -/
def encryptFallbackTooLarge : List Nat → Nat → Bool
  | [], _ => false
  | s :: rest, total =>
    let t := total + s
    if MAX_ALLOWED_SIZE_MAIN_THREAD < t then true else encryptFallbackTooLarge rest t

/-- Output construction shared by the streaming paths of encryptJob and
decryptJob: `{...files[i], stream: remote readable, size: sizes[i],
id: ids[i]}`, the remote readable of item i being a fresh channel handle. -/
def remoteStreamOut : List PenumbraFile → List Nat → List Nat → Nat → List PenumbraFile
  | f :: fs, i :: ids, s :: sizes, tag =>
    ⟨some i, StreamRep.readable tag, some s, f.mimetype, f.path⟩ ::
      remoteStreamOut fs ids sizes (tag + 1)
  | _, _, _, _ => []

/-- Output construction of encryptJob's buffered fallback:
`{stream, ...file, ...options}` — the spread of `file` comes after `stream`,
so the file's own fields (including its original stream and size) win; the
file carries the id assigned by the collection loop. -/
def encryptBufferOut : List PenumbraFile → List Nat → List PenumbraFile
  | f :: fs, i :: ids =>
    ⟨some i, f.stream, f.size, f.mimetype, f.path⟩ :: encryptBufferOut fs ids
  | _, _ => []

/-- Modelled from the spec: the buffered decrypt transform (module
`./decrypt`, absent from src/) — §4.5: each item is processed fully in the
current context, producing a fully materialized buffer instead of a stream;
metadata is carried over unchanged. -/
def decryptBufferOut : List PenumbraFile → List PenumbraFile
  | [] => []
  | f :: fs =>
    ⟨f.id, StreamRep.buffered (f.size.getD 0), f.size, f.mimetype, f.path⟩ ::
      decryptBufferOut fs

/-- encryptJob of API.ts. -/
def encryptJob (wss : Bool) (files : List PenumbraFile) (st : CoordState) :
    Except PenumbraErr (List PenumbraFile) × CoordState :=
  if files.isEmpty then (Except.error (PenumbraErr.argumentMissing "encrypt"), st)
  else if files.any (fun f => f.stream.isBuffered) then
    (Except.error PenumbraErr.streamsOnly, st)
  else
    let c := collectEncrypt files st.jobID
    let st1 := setJobID st c.nextID
    match c.err with
    | some e => (Except.error e, st1)
    | none =>
      if wss then
        (Except.ok (remoteStreamOut files c.ids c.sizes st1.channelPairs),
          addChannels st1 (2 * files.length))
      else
        if encryptFallbackTooLarge (files.map fun f => f.size.getD 0) 0 then
          (Except.error (PenumbraErr.tooLarge "encrypt"), st1)
        else
          (Except.ok (encryptBufferOut files c.ids), st1)

/-- decryptJob of API.ts.  On the streaming path the channel pairs are
constructed before the id/size collection loop runs; on the buffered
fallback each file's size (defaulted to 0) is checked individually against
the ceiling and no ids are assigned. -/
def decryptJob (wss : Bool) (files : List PenumbraFile) (st : CoordState) :
    Except PenumbraErr (List PenumbraFile) × CoordState :=
  if files.isEmpty then (Except.error (PenumbraErr.argumentMissing "decrypt"), st)
  else if wss then
    let st1 := addChannels st (2 * files.length)
    let c := collectDecrypt files st1.jobID
    let st2 := setJobID st1 c.nextID
    match c.err with
    | some e => (Except.error e, st2)
    | none => (Except.ok (remoteStreamOut files c.ids c.sizes st.channelPairs), st2)
  else
    if files.any (fun f => decide (MAX_ALLOWED_SIZE_MAIN_THREAD < f.size.getD 0)) then
      (Except.error (PenumbraErr.tooLarge "decrypt"), st)
    else
      (Except.ok (decryptBufferOut files), st)

/-- Streaming-path output of getJob: `{stream, path, ...resources[i]}` —
the path derived from the url is overridden by a path the resource carries. -/
def getStreamOut : List RemoteResource → Nat → List PenumbraFile
  | [], _ => []
  | r :: rs, tag =>
    ⟨none, StreamRep.readable tag, none, r.mimetype,
      match r.path with
      | some p => some p
      | none => r.url⟩ :: getStreamOut rs (tag + 1)

/-- Buffered-fallback output of getJob: `{stream: arrayBuffer, ...resource}`. -/
def getBufferOut : List RemoteResource → List PenumbraFile
  | [] => []
  | r :: rs => ⟨none, StreamRep.buffered 0, none, r.mimetype, r.path⟩ :: getBufferOut rs

/-- getJob of API.ts.  On the streaming path one RemoteReadableStream
(channel pair) is constructed per resource and the readables are returned
immediately; the buffered fallback rejects when any resource lacks a url. -/
def getJob (wss : Bool) (resources : List RemoteResource) (st : CoordState) :
    Except PenumbraErr (List PenumbraFile) × CoordState :=
  if resources.isEmpty then (Except.error (PenumbraErr.argumentMissing "get"), st)
  else if wss then
    (Except.ok (getStreamOut resources st.channelPairs), addChannels st resources.length)
  else
    if resources.any (fun r => r.url.isNone) then
      (Except.error (PenumbraErr.resourceMissingURL "get"), st)
    else
      (Except.ok (getBufferOut resources), st)

/-- The per-item fan-out of the public API wrappers:
`Promise.all(items.map(async item => (await job(item))[0]))`.  Every item's
job runs (its state mutations persist) even when an earlier item's job
threw; the overall promise rejects with the first error, otherwise it
resolves with the heads (`[0]`, possibly `undefined`) of the per-item
results, in input order. -/
def mapJobs (job : α → CoordState → Except PenumbraErr (List PenumbraFile) × CoordState) :
    List α → CoordState → Except PenumbraErr (List (Option PenumbraFile)) × CoordState
  | [], st => (Except.ok [], st)
  | x :: xs, st =>
    let r := job x st
    let rest := mapJobs job xs r.2
    match r.1, rest.1 with
    | Except.ok out, Except.ok outs => (Except.ok (out.head? :: outs), rest.2)
    | Except.error e, _ => (Except.error e, rest.2)
    | Except.ok _, Except.error e => (Except.error e, rest.2)

/-- penumbra.get(): each resource is dispatched as its own single-resource
getJob. -/
def get (wss : Bool) (resources : List RemoteResource) (st : CoordState) :
    Except PenumbraErr (List (Option PenumbraFile)) × CoordState :=
  mapJobs (fun r s => getJob wss [r] s) resources st

/-- penumbra.encrypt(): each file is dispatched as its own single-file
encryptJob (the encryption options do not influence the orchestration
modelled here and are omitted). -/
def encrypt (wss : Bool) (files : List PenumbraFile) (st : CoordState) :
    Except PenumbraErr (List (Option PenumbraFile)) × CoordState :=
  mapJobs (fun f s => encryptJob wss [f] s) files st

/-- penumbra.decrypt(): each file is dispatched as its own single-file
decryptJob. -/
def decrypt (wss : Bool) (files : List PenumbraFile) (st : CoordState) :
    Except PenumbraErr (List (Option PenumbraFile)) × CoordState :=
  mapJobs (fun f s => decryptJob wss [f] s) files st

/-- Whether an Except is a resolution rather than a rejection. -/
def isResolved {β : Type} : Except PenumbraErr β → Bool
  | Except.ok _ => true
  | Except.error _ => false

/-- Whether a job run resolved rather than rejected. -/
def exOk {β : Type} (p : Except PenumbraErr β × CoordState) : Bool :=
  isResolved p.1

/-! ## The worker-facing remote surface (PenumbraWorker) -/

/-- Result of one worker-facing call: the per-item jobs that were actually
started (the dropped items of a truncated batch appear nowhere), and whether
the count-mismatch warning was printed. -/
structure WorkerRun (α : Type) where
  jobs : List α
  warned : Bool
deriving DecidableEq, Repr

/-- PenumbraWorker.get: on a writable-port/resource count mismatch both
arrays are truncated to the common minimum length (with a console warning)
and each remaining resource is paired with its writable port; no exception
is raised by the mismatch. -/
def workerGet (writablePorts : List Nat) (resources : List RemoteResource) :
    WorkerRun (Nat × RemoteResource) :=
  ⟨writablePorts.zip resources, writablePorts.length != resources.length⟩

/-- PenumbraWorker.decrypt: on a readable/writable port count mismatch both
port arrays are truncated to the common minimum length (with a console
warning); each started job pairs readablePorts[i] with writablePorts[i],
ids[i] and sizes[i] (the latter two `undefined` when out of range). -/
def workerDecrypt (ids sizes readablePorts writablePorts : List Nat) :
    WorkerRun (Nat × Nat × Option Nat × Option Nat) :=
  let n := min writablePorts.length readablePorts.length
  ⟨(List.range n).map fun i =>
      (readablePorts.getD i 0, writablePorts.getD i 0, ids.get? i, sizes.get? i),
    writablePorts.length != readablePorts.length⟩

/-- PenumbraWorker.encrypt: identical truncation policy to
PenumbraWorker.decrypt. -/
def workerEncrypt (ids sizes readablePorts writablePorts : List Nat) :
    WorkerRun (Nat × Nat × Option Nat × Option Nat) :=
  let n := min writablePorts.length readablePorts.length
  ⟨(List.range n).map fun i =>
      (readablePorts.getD i 0, writablePorts.getD i 0, ids.get? i, sizes.get? i),
    writablePorts.length != readablePorts.length⟩

/-! ## Completion event bus and the decryption-descriptor cache -/

/-- The key/IV/auth-tag decryption descriptor, abstracted. -/
structure PenumbraDecryptionInfo where
  key : Nat
  iv : Nat
  authTag : Nat
deriving DecidableEq, Repr

/-- The `decryptionConfigs` map: `Map.set` prepends (a later set shadows an
earlier one for lookup), `Map.get` finds the most recent binding. -/
def configsGet (m : List (Nat × PenumbraDecryptionInfo)) (k : Nat) :
    Option PenumbraDecryptionInfo :=
  (m.find? fun p => p.1 == k).map fun p => p.2

/-- trackJobCompletion of API.ts, run against the stream of
penumbra-complete events that will fire, in order.  The listener caches
every event's descriptor into `decryptionConfigs`, and on the first event
whose id matches it unsubscribes and resolves with that descriptor; if no
event ever matches, the promise never resolves (`none`). -/
def trackJobCompletion (searchForID : Nat) :
    List (Nat × PenumbraDecryptionInfo) → List (Nat × PenumbraDecryptionInfo) →
      Option PenumbraDecryptionInfo × List (Nat × PenumbraDecryptionInfo)
  | [], cfgs => (none, cfgs)
  | (i, d) :: rest, cfgs =>
    let cfgs2 := (i, d) :: cfgs
    if i == searchForID then (some d, cfgs2)
    else trackJobCompletion searchForID rest cfgs2

/-- getDecryptionInfo of API.ts: resolve from the descriptor cache when the
id is already recorded, otherwise subscribe to the completion event bus
filtered by the id. -/
def getDecryptionInfo (id : Nat) (cfgs events : List (Nat × PenumbraDecryptionInfo)) :
    Option PenumbraDecryptionInfo × List (Nat × PenumbraDecryptionInfo) :=
  match configsGet cfgs id with
  | some d => (some d, cfgs)
  | none => trackJobCompletion id events cfgs

/-! ## getTextOrURI -/

/-- The text-or-URI result record of API.ts. -/
structure PenumbraTextOrURI where
  kind : String
  data : String
  mimetype : String
deriving DecidableEq, Repr

/-- getTextOrURI of API.ts, parametric in the external collaborators that
src/ does not contain (module `./utils`): the viewable-text MIME
designation, reading a stream as text, and blob-URL creation.  For each
file: a viewable-text mimetype yields an inline text record; any other
mimetype yields a URI record whose URL is pushed onto the process-wide
`blobCache` exactly once.  Returns the results in input order together with
the final cache. -/
def getTextOrURI (viewable : String → Bool) (readText mkURL : PenumbraFile → String) :
    List PenumbraFile → List String → List PenumbraTextOrURI × List String
  | [], cache => ([], cache)
  | f :: fs, cache =>
    let mt := f.mimetype.getD ""
    if viewable mt then
      let r := getTextOrURI viewable readText mkURL fs cache
      (⟨"text", readText f, mt⟩ :: r.1, r.2)
    else
      let url := mkURL f
      let r := getTextOrURI viewable readText mkURL fs (cache ++ [url])
      (⟨"uri", url, mt⟩ :: r.1, r.2)

/-! ## Characterization lemmas for the collection loops -/

/-- With every size truthy, the encrypt collection loop assigns the
consecutive counter values `j, j+1, ...` as ids, collects all sizes, leaves
the counter at `j + N` and throws nothing. -/
theorem collectEncrypt_spec (files : List PenumbraFile) (j : Nat)
    (h : files.all (fun f => numTruthy f.size) = true) :
    collectEncrypt files j =
      ⟨List.range' j files.length, files.map (fun f => f.size.getD 0),
        j + files.length, none⟩ := by
  induction files generalizing j with
  | nil => simp [collectEncrypt, List.range']
  | cons f fs ih =>
    simp only [List.all_cons, Bool.and_eq_true] at h
    have harith : j + (fs.length + 1) = (j + 1) + fs.length := by omega
    simp [collectEncrypt, h.1, ih (j + 1) h.2, List.range'_succ, harith]

/-- If some size is falsy, the encrypt collection loop throws the
size-undetermined error. -/
theorem collectEncrypt_err (files : List PenumbraFile) (j : Nat)
    (h : files.any (fun f => !numTruthy f.size) = true) :
    (collectEncrypt files j).err = some (PenumbraErr.sizeUndetermined "encrypt") := by
  induction files generalizing j with
  | nil => simp at h
  | cons f fs ih =>
    by_cases hf : numTruthy f.size = true
    · simp only [List.any_cons, Bool.or_eq_true, hf, Bool.not_true] at h
      have hfs : fs.any (fun f => !numTruthy f.size) = true := by
        rcases h with h | h
        · cases h
        · exact h
      simp [collectEncrypt, hf, ih (j + 1) hfs]
    · simp [collectEncrypt, hf]

/-- The id the decrypt collection loop gives the `i`-th file, stated as a
closed formula (refinement model to compare against `collectDecrypt`): a
truthy caller-supplied id is kept, otherwise the id is the counter start
plus the number of fresh draws made for earlier files. -/
def decryptIdModel (files : List PenumbraFile) (j i : Nat) : Nat :=
  match files.get? i with
  | some f =>
    if numTruthy f.id then f.id.getD 0
    else j + ((files.take i).countP fun g => !numTruthy g.id)
  | none => 0

/-- Peeling a file whose own id is truthy off the front of the batch leaves
the modelled id assignment of the later files unchanged. -/
theorem decryptIdModel_cons_keep (f : PenumbraFile) (fs : List PenumbraFile) (j i : Nat)
    (hid : numTruthy f.id = true) :
    decryptIdModel (f :: fs) j (i + 1) = decryptIdModel fs j i := by
  unfold decryptIdModel
  simp only [List.get?_cons_succ, List.take_succ_cons, List.countP_cons, hid]
  cases fs.get? i with
  | none => rfl
  | some g => simp

/-- Peeling a file whose own id is falsy off the front of the batch shifts
the counter start of the modelled id assignment by one. -/
theorem decryptIdModel_cons_fresh (f : PenumbraFile) (fs : List PenumbraFile) (j i : Nat)
    (hid : numTruthy f.id = false) :
    decryptIdModel (f :: fs) j (i + 1) = decryptIdModel fs (j + 1) i := by
  unfold decryptIdModel
  simp only [List.get?_cons_succ, List.take_succ_cons, List.countP_cons, hid]
  cases fs.get? i with
  | none => rfl
  | some g =>
    by_cases hg : numTruthy g.id = true
    · simp [hg]
    · simp only [hg]
      have : j + ((fs.take i).countP (fun g => !numTruthy g.id) + 1)
          = j + 1 + (fs.take i).countP (fun g => !numTruthy g.id) := by omega
      simp [this]

/-- With every size truthy, the decrypt collection loop throws nothing,
collects all sizes, advances the counter once per file whose own id is
falsy, and assigns ids according to `decryptIdModel`. -/
theorem collectDecrypt_spec (files : List PenumbraFile) (j : Nat)
    (h : files.all (fun f => numTruthy f.size) = true) :
    (collectDecrypt files j).err = none
    ∧ (collectDecrypt files j).sizes = files.map (fun f => f.size.getD 0)
    ∧ (collectDecrypt files j).nextID = j + (files.countP fun g => !numTruthy g.id)
    ∧ (collectDecrypt files j).ids.length = files.length
    ∧ ∀ i, i < files.length →
        (collectDecrypt files j).ids.get? i = some (decryptIdModel files j i) := by
  induction files generalizing j with
  | nil => simp [collectDecrypt]
  | cons f fs ih =>
    simp only [List.all_cons, Bool.and_eq_true] at h
    by_cases hid : numTruthy f.id = true
    · have r := ih j h.2
      refine ⟨?_, ?_, ?_, ?_, ?_⟩
      · simp [collectDecrypt, hid, h.1, r.1]
      · simp [collectDecrypt, hid, h.1, r.2.1]
      · simp [collectDecrypt, hid, h.1, r.2.2.1, List.countP_cons]
      · simp [collectDecrypt, hid, h.1, r.2.2.2.1]
      · intro i hi
        match i with
        | 0 => simp [collectDecrypt, hid, h.1, decryptIdModel]
        | Nat.succ i2 =>
          have hi2 : i2 < fs.length := by simpa using hi
          have hstep : (collectDecrypt (f :: fs) j).ids.get? (i2 + 1)
              = (collectDecrypt fs j).ids.get? i2 := by
            simp [collectDecrypt, hid, h.1]
          rw [hstep, decryptIdModel_cons_keep f fs j i2 hid]
          exact r.2.2.2.2 i2 hi2
    · have hid2 : numTruthy f.id = false := by simpa using hid
      have r := ih (j + 1) h.2
      refine ⟨?_, ?_, ?_, ?_, ?_⟩
      · simp [collectDecrypt, hid2, h.1, r.1]
      · simp [collectDecrypt, hid2, h.1, r.2.1]
      · have harith : j + 1 + (fs.countP fun g => !numTruthy g.id)
            = j + ((fs.countP fun g => !numTruthy g.id) + 1) := by omega
        simp [collectDecrypt, hid2, h.1, r.2.2.1, List.countP_cons, harith]
      · simp [collectDecrypt, hid2, h.1, r.2.2.2.1]
      · intro i hi
        match i with
        | 0 => simp [collectDecrypt, hid2, h.1, decryptIdModel]
        | Nat.succ i2 =>
          have hi2 : i2 < fs.length := by simpa using hi
          have hstep : (collectDecrypt (f :: fs) j).ids.get? (i2 + 1)
              = (collectDecrypt fs (j + 1)).ids.get? i2 := by
            simp [collectDecrypt, hid2, h.1]
          rw [hstep, decryptIdModel_cons_fresh f fs j i2 hid2]
          exact r.2.2.2.2 i2 hi2

/-- If some size is falsy, the decrypt collection loop throws the
size-undetermined error. -/
theorem collectDecrypt_err (files : List PenumbraFile) (j : Nat)
    (h : files.any (fun f => !numTruthy f.size) = true) :
    (collectDecrypt files j).err = some (PenumbraErr.sizeUndetermined "decrypt") := by
  induction files generalizing j with
  | nil => simp at h
  | cons f fs ih =>
    by_cases hf : numTruthy f.size = true
    · simp only [List.any_cons, Bool.or_eq_true, hf, Bool.not_true] at h
      have hfs : fs.any (fun f => !numTruthy f.size) = true := by
        rcases h with h | h
        · cases h
        · exact h
      by_cases hid : numTruthy f.id = true <;>
        simp [collectDecrypt, hf, hid, ih _ hfs]
    · by_cases hid : numTruthy f.id = true <;> simp [collectDecrypt, hf, hid]

/-- The running-total loop of encryptJob's fallback throws whenever the
grand total exceeds the ceiling. -/
theorem encryptFallbackTooLarge_of_sum (sizes : List Nat) (acc : Nat)
    (hne : sizes ≠ [])
    (h : MAX_ALLOWED_SIZE_MAIN_THREAD < acc + sizes.sum) :
    encryptFallbackTooLarge sizes acc = true := by
  induction sizes generalizing acc with
  | nil => cases hne rfl
  | cons s rest ih =>
    by_cases hs : MAX_ALLOWED_SIZE_MAIN_THREAD < acc + s
    · simp [encryptFallbackTooLarge, hs]
    · have hrest : rest ≠ [] := by
        rintro rfl
        simp at h
        omega
      have : MAX_ALLOWED_SIZE_MAIN_THREAD < (acc + s) + rest.sum := by
        simp only [List.sum_cons] at h
        omega
      simp [encryptFallbackTooLarge, hs, ih (acc + s) hrest this]

/-! ## Per-item validity and singleton-job lemmas -/

/-- A resource that a single-resource getJob accepts: the streaming path
accepts anything, the buffered fallback needs a url. -/
def validGetItem (wss : Bool) (r : RemoteResource) : Bool :=
  wss || r.url.isSome

/-- A file that a single-file encryptJob accepts: not an ArrayBuffer, a
truthy size, and on the fallback path a size within the ceiling. -/
def validEncryptItem (wss : Bool) (f : PenumbraFile) : Bool :=
  (!f.stream.isBuffered && numTruthy f.size)
    && (wss || decide (f.size.getD 0 ≤ MAX_ALLOWED_SIZE_MAIN_THREAD))

/-- A file that a single-file decryptJob accepts: a truthy size on the
streaming path, a size within the ceiling on the fallback path. -/
def validDecryptItem (wss : Bool) (f : PenumbraFile) : Bool :=
  if wss then numTruthy f.size
  else decide (f.size.getD 0 ≤ MAX_ALLOWED_SIZE_MAIN_THREAD)

/-- A valid single-resource getJob resolves with exactly one file that
keeps the resource's mimetype. -/
theorem getJob_singleton (wss : Bool) (r : RemoteResource) (st : CoordState)
    (h : validGetItem wss r = true) :
    ∃ out st2, getJob wss [r] st = (Except.ok [out], st2)
      ∧ out.mimetype = r.mimetype := by
  cases wss with
  | true =>
    refine ⟨⟨none, StreamRep.readable st.channelPairs, none, r.mimetype,
      match r.path with
      | some p => some p
      | none => r.url⟩, addChannels st 1, ?_, rfl⟩
    simp [getJob, getStreamOut]
  | false =>
    have hu : r.url.isSome = true := by simpa [validGetItem] using h
    obtain ⟨u, hu2⟩ := Option.isSome_iff_exists.mp hu
    refine ⟨⟨none, StreamRep.buffered 0, none, r.mimetype, r.path⟩, st, ?_, rfl⟩
    simp [getJob, getBufferOut, hu2]

/-- A valid single-file encryptJob resolves with exactly one file that
keeps the input's mimetype and size. -/
theorem encryptJob_singleton (wss : Bool) (f : PenumbraFile) (st : CoordState)
    (h : validEncryptItem wss f = true) :
    ∃ out st2, encryptJob wss [f] st = (Except.ok [out], st2)
      ∧ out.mimetype = f.mimetype ∧ out.size = f.size := by
  simp only [validEncryptItem, Bool.and_eq_true, Bool.or_eq_true,
    decide_eq_true_eq, Bool.not_eq_true'] at h
  obtain ⟨⟨hb, hsz⟩, hcap⟩ := h
  obtain ⟨s, hs⟩ : ∃ s, f.size = some s := by
    cases hfs : f.size with
    | none => rw [hfs] at hsz; simp [numTruthy] at hsz
    | some s => exact ⟨s, rfl⟩
  have hcoll := collectEncrypt_spec [f] st.jobID (by simp [hsz])
  cases wss with
  | true =>
    refine ⟨⟨some st.jobID, StreamRep.readable st.channelPairs,
      some (f.size.getD 0), f.mimetype, f.path⟩,
      ⟨st.jobID + 1, st.channelPairs + 2⟩, ?_, rfl, by simp [hs]⟩
    simp [encryptJob, hb, hcoll, remoteStreamOut, setJobID, addChannels, List.range']
  | false =>
    have hle : f.size.getD 0 ≤ MAX_ALLOWED_SIZE_MAIN_THREAD := by
      rcases hcap with h1 | h1
      · cases h1
      · exact h1
    have hck : encryptFallbackTooLarge [f.size.getD 0] 0 = false := by
      simp [encryptFallbackTooLarge, Nat.not_lt.mpr hle]
    refine ⟨⟨some st.jobID, f.stream, f.size, f.mimetype, f.path⟩,
      ⟨st.jobID + 1, st.channelPairs⟩, ?_, rfl, rfl⟩
    simp [encryptJob, hb, hcoll, hck, encryptBufferOut, setJobID, List.range']

/-- A valid single-file decryptJob resolves with exactly one file that
keeps the input's mimetype and size. -/
theorem decryptJob_singleton (wss : Bool) (f : PenumbraFile) (st : CoordState)
    (h : validDecryptItem wss f = true) :
    ∃ out st2, decryptJob wss [f] st = (Except.ok [out], st2)
      ∧ out.mimetype = f.mimetype ∧ out.size = f.size := by
  cases wss with
  | true =>
    have hsz : numTruthy f.size = true := by simpa [validDecryptItem] using h
    obtain ⟨s, hs⟩ : ∃ s, f.size = some s := by
      cases hfs : f.size with
      | none => rw [hfs] at hsz; simp [numTruthy] at hsz
      | some s => exact ⟨s, rfl⟩
    have hcoll := collectDecrypt_spec [f] st.jobID (by simp [hsz])
    by_cases hid : numTruthy f.id = true
    · refine ⟨⟨some (f.id.getD 0), StreamRep.readable st.channelPairs,
        some (f.size.getD 0), f.mimetype, f.path⟩,
        ⟨st.jobID, st.channelPairs + 2⟩, ?_, rfl, by simp [hs]⟩
      simp [decryptJob, collectDecrypt, hid, hsz, remoteStreamOut, setJobID, addChannels]
    · have hid2 : numTruthy f.id = false := by simpa using hid
      refine ⟨⟨some st.jobID, StreamRep.readable st.channelPairs,
        some (f.size.getD 0), f.mimetype, f.path⟩,
        ⟨st.jobID + 1, st.channelPairs + 2⟩, ?_, rfl, by simp [hs]⟩
      simp [decryptJob, collectDecrypt, hid2, hsz, remoteStreamOut, setJobID, addChannels]
  | false =>
    have hle : f.size.getD 0 ≤ MAX_ALLOWED_SIZE_MAIN_THREAD := by
      simpa [validDecryptItem] using h
    refine ⟨⟨f.id, StreamRep.buffered (f.size.getD 0), f.size, f.mimetype, f.path⟩,
      st, ?_, rfl, rfl⟩
    simp [decryptJob, decryptBufferOut, Nat.not_lt.mpr hle]

/-- The per-item fan-out of the public wrappers: when every item is
accepted by its singleton job, the batch resolves with one result per item,
in input order, each result related to its own input. -/
theorem mapJobs_ok {α : Type}
    (job : α → CoordState → Except PenumbraErr (List PenumbraFile) × CoordState)
    (P : α → Bool) (Q : α → PenumbraFile → Prop)
    (hjob : ∀ x st, P x = true → ∃ out st2, job x st = (Except.ok [out], st2) ∧ Q x out) :
    ∀ (xs : List α) (st : CoordState), (∀ x ∈ xs, P x = true) →
      ∃ outs, (mapJobs job xs st).1 = Except.ok outs ∧ outs.length = xs.length ∧
        ∀ i, i < xs.length →
          ∃ x g, xs.get? i = some x ∧ outs.get? i = some (some g) ∧ Q x g := by
  intro xs
  induction xs with
  | nil =>
    intro st hall
    exact ⟨[], by simp [mapJobs], by simp, by intro i hi; simp at hi⟩
  | cons x xs ih =>
    intro st hall
    obtain ⟨out, st2, hx, hq⟩ := hjob x st (hall x (by simp))
    obtain ⟨outs, h1, h2, h3⟩ := ih st2 (fun y hy => hall y (by simp [hy]))
    refine ⟨some out :: outs, ?_, by simp [h2], ?_⟩
    · simp only [mapJobs, hx]
      cases hrest : (mapJobs job xs st2).1 with
      | ok o =>
        rw [hrest] at h1
        cases h1
        simp
      | error e => rw [hrest] at h1; cases h1
    · intro i hi
      match i with
      | 0 => exact ⟨x, out, rfl, rfl, hq⟩
      | Nat.succ i2 =>
        have hi2 : i2 < xs.length := by simpa using hi
        obtain ⟨y, g, hy, hg, hq2⟩ := h3 i2 hi2
        exact ⟨y, g, hy, hg, hq2⟩

/-! ## Claim C1 -/

/-- C1: for every batch of valid input items, each of the public operations
get, encrypt, and decrypt resolves with exactly N result file handles, and
the i-th result corresponds to the i-th input item (same mimetype, and for
encrypt/decrypt the same size), results in input order. -/
theorem C1_batch_in_order (wss : Bool) (rs : List RemoteResource)
    (fs gs : List PenumbraFile) (st1 st2 st3 : CoordState)
    (h1 : ∀ r ∈ rs, validGetItem wss r = true)
    (h2 : ∀ f ∈ fs, validEncryptItem wss f = true)
    (h3 : ∀ g ∈ gs, validDecryptItem wss g = true) :
    (∃ outs, (get wss rs st1).1 = Except.ok outs ∧ outs.length = rs.length ∧
      ∀ i, i < rs.length → ∃ r o, rs.get? i = some r ∧ outs.get? i = some (some o)
        ∧ o.mimetype = r.mimetype)
  ∧ (∃ outs, (encrypt wss fs st2).1 = Except.ok outs ∧ outs.length = fs.length ∧
      ∀ i, i < fs.length → ∃ f o, fs.get? i = some f ∧ outs.get? i = some (some o)
        ∧ o.mimetype = f.mimetype ∧ o.size = f.size)
  ∧ (∃ outs, (decrypt wss gs st3).1 = Except.ok outs ∧ outs.length = gs.length ∧
      ∀ i, i < gs.length → ∃ g o, gs.get? i = some g ∧ outs.get? i = some (some o)
        ∧ o.mimetype = g.mimetype ∧ o.size = g.size) := by
  refine ⟨?_, ?_, ?_⟩
  · exact mapJobs_ok _ (validGetItem wss) (fun r o => o.mimetype = r.mimetype)
      (fun r st h => getJob_singleton wss r st h) rs st1 h1
  · exact mapJobs_ok _ (validEncryptItem wss)
      (fun f o => o.mimetype = f.mimetype ∧ o.size = f.size)
      (fun f st h => encryptJob_singleton wss f st h) fs st2 h2
  · exact mapJobs_ok _ (validDecryptItem wss)
      (fun g o => o.mimetype = g.mimetype ∧ o.size = g.size)
      (fun g st h => decryptJob_singleton wss g st h) gs st3 h3

/-- A concrete valid resource. -/
def sampleRes : RemoteResource := ⟨some "https://host/a.enc", some "text/plain", none⟩

/-- A concrete valid streaming file. -/
def sampleFile : PenumbraFile :=
  ⟨none, StreamRep.readable 0, some 1024, some "text/plain", none⟩

theorem C1_batch_in_order_witness :
    (∃ outs, (get true [sampleRes] ⟨0, 0⟩).1 = Except.ok outs
      ∧ outs.length = [sampleRes].length ∧
      ∀ i, i < [sampleRes].length → ∃ r o, [sampleRes].get? i = some r
        ∧ outs.get? i = some (some o) ∧ o.mimetype = r.mimetype)
  ∧ (∃ outs, (encrypt true [sampleFile] ⟨0, 0⟩).1 = Except.ok outs
      ∧ outs.length = [sampleFile].length ∧
      ∀ i, i < [sampleFile].length → ∃ f o, [sampleFile].get? i = some f
        ∧ outs.get? i = some (some o) ∧ o.mimetype = f.mimetype ∧ o.size = f.size)
  ∧ (∃ outs, (decrypt true [sampleFile] ⟨0, 0⟩).1 = Except.ok outs
      ∧ outs.length = [sampleFile].length ∧
      ∀ i, i < [sampleFile].length → ∃ g o, [sampleFile].get? i = some g
        ∧ outs.get? i = some (some o) ∧ o.mimetype = g.mimetype ∧ o.size = g.size) :=
  C1_batch_in_order true [sampleRes] [sampleFile] [sampleFile] ⟨0, 0⟩ ⟨0, 0⟩ ⟨0, 0⟩
    (by decide) (by decide) (by decide)

/-! ## Shared rejection lemmas -/

/-- A batch with an item of falsy size is rejected whole by encryptJob on
either path and by the streaming decryptJob; the streaming decryptJob has
nevertheless already constructed all 2N channel pairs. -/
theorem reject_bad_size (wss : Bool) (files : List PenumbraFile) (st : CoordState)
    (hne : files ≠ [])
    (hnb : files.all (fun f => !f.stream.isBuffered) = true)
    (hbad : files.any (fun f => !numTruthy f.size) = true) :
    (encryptJob wss files st).1 = Except.error (PenumbraErr.sizeUndetermined "encrypt")
    ∧ (decryptJob true files st).1 = Except.error (PenumbraErr.sizeUndetermined "decrypt")
    ∧ ((decryptJob true files st).2).channelPairs = st.channelPairs + 2 * files.length := by
  have hemp : files.isEmpty = false := by
    cases files with
    | nil => cases hne rfl
    | cons a l => rfl
  have hany : files.any (fun f => f.stream.isBuffered) = false := by
    rw [List.any_eq_false]
    intro f hf
    have := List.all_eq_true.mp hnb f hf
    simp only [Bool.not_eq_true'] at this
    simp [this]
  refine ⟨?_, ?_, ?_⟩
  · simp [encryptJob, hemp, hany, collectEncrypt_err files st.jobID hbad]
  · simp [decryptJob, hemp, collectDecrypt_err files _ hbad]
  · simp [decryptJob, hemp, collectDecrypt_err files _ hbad, setJobID, addChannels]

/-- A nonempty fallback decrypt batch whose every declared size is within
the ceiling is processed (the fallback never sums the sizes). -/
theorem decryptFallback_ok (files : List PenumbraFile) (st : CoordState)
    (hne : files ≠ [])
    (hbound : ∀ g ∈ files, g.size.getD 0 ≤ MAX_ALLOWED_SIZE_MAIN_THREAD) :
    exOk (decryptJob false files st) = true := by
  have hemp : files.isEmpty = false := by
    cases files with
    | nil => cases hne rfl
    | cons a l => rfl
  have hany : files.any
      (fun f => decide (MAX_ALLOWED_SIZE_MAIN_THREAD < f.size.getD 0)) = false := by
    rw [List.any_eq_false]
    intro g hg
    simpa using Nat.not_lt.mpr (hbound g hg)
  simp [decryptJob, hemp, hany, exOk, isResolved]

/-- When one item's singleton job always rejects, the whole per-item
fan-out rejects. -/
theorem mapJobs_error_of_bad {α : Type}
    (job : α → CoordState → Except PenumbraErr (List PenumbraFile) × CoordState)
    (x : α)
    (hbad : ∀ st, isResolved (job x st).1 = false) :
    ∀ (xs : List α), x ∈ xs → ∀ st, isResolved (mapJobs job xs st).1 = false := by
  intro xs
  induction xs with
  | nil => intro h; cases h
  | cons y ys ih =>
    intro hmem st
    rcases List.mem_cons.mp hmem with rfl | hmem2
    · have hx := hbad st
      simp only [mapJobs]
      cases hj : (job x st).1 with
      | ok o => rw [hj] at hx; simp [isResolved] at hx
      | error e =>
        cases hr : (mapJobs job ys (job x st).2).1 <;> simp [isResolved]
    · simp only [mapJobs]
      cases hj : (job y st).1 with
      | ok o =>
        have hrest := ih hmem2 (job y st).2
        cases hr : (mapJobs job ys (job y st).2).1 with
        | ok o2 => rw [hr] at hrest; simp [isResolved] at hrest
        | error e => simp [isResolved]
      | error e =>
        cases hr : (mapJobs job ys (job y st).2).1 <;> simp [isResolved]

/-! ## Claim C2 -/

/-- C2 counterexample: a two-item fallback decrypt batch of 9 MiB each
(total 18 MiB, beyond the 16 MiB ceiling) is not rejected — the fallback
decrypt path never sums the batch's sizes. -/
theorem C2_counterexample :
    MAX_ALLOWED_SIZE_MAIN_THREAD < 9437184 + 9437184
  ∧ exOk (decryptJob false
      [⟨some 1, StreamRep.readable 0, some 9437184, none, none⟩,
       ⟨some 2, StreamRep.readable 1, some 9437184, none, none⟩] ⟨0, 0⟩) = true := by
  decide

/-- C2 (amended): on the buffered fallback path, encryptJob sums the
declared sizes before any item is processed and rejects the whole batch
(producing no output) when the running total exceeds 16 MiB; decryptJob
instead checks each item's declared size individually against the ceiling,
so a fallback decrypt batch whose every item is within the ceiling is
processed even when the batch total exceeds it. -/
theorem C2_fallback_ceiling (files gs : List PenumbraFile) (st st2 : CoordState)
    (hne : files ≠ [])
    (hnb : files.all (fun f => !f.stream.isBuffered) = true)
    (hsz : files.all (fun f => numTruthy f.size) = true)
    (htot : MAX_ALLOWED_SIZE_MAIN_THREAD < (files.map (fun f => f.size.getD 0)).sum)
    (hg1 : gs ≠ [])
    (hg2 : ∀ g ∈ gs, g.size.getD 0 ≤ MAX_ALLOWED_SIZE_MAIN_THREAD) :
    (encryptJob false files st).1 = Except.error (PenumbraErr.tooLarge "encrypt")
  ∧ exOk (decryptJob false gs st2) = true := by
  constructor
  · have hmapne : (files.map (fun f => f.size.getD 0)) ≠ [] := by
      simpa using hne
    have hbig := encryptFallbackTooLarge_of_sum _ 0 hmapne (by simpa using htot)
    have hany : files.any (fun f => f.stream.isBuffered) = false := by
      rw [List.any_eq_false]
      intro f hf
      have := List.all_eq_true.mp hnb f hf
      simp only [Bool.not_eq_true'] at this
      simp [this]
    have hemp : files.isEmpty = false := by
      cases files with
      | nil => cases hne rfl
      | cons a l => rfl
    simp [encryptJob, hemp, hany, collectEncrypt_spec files st.jobID hsz, hbig]
  · exact decryptFallback_ok gs st2 hg1 hg2

/-- A concrete 9 MiB streaming file. -/
def nineMiBFileA : PenumbraFile := ⟨some 1, StreamRep.readable 0, some 9437184, none, none⟩

/-- Another concrete 9 MiB streaming file. -/
def nineMiBFileB : PenumbraFile := ⟨some 2, StreamRep.readable 1, some 9437184, none, none⟩

theorem C2_fallback_ceiling_witness :
    (encryptJob false [nineMiBFileA, nineMiBFileB] ⟨0, 0⟩).1
      = Except.error (PenumbraErr.tooLarge "encrypt")
  ∧ exOk (decryptJob false [nineMiBFileA, nineMiBFileB] ⟨0, 0⟩) = true :=
  C2_fallback_ceiling [nineMiBFileA, nineMiBFileB] [nineMiBFileA, nineMiBFileB]
    ⟨0, 0⟩ ⟨0, 0⟩ (by decide) (by decide) (by decide) (by decide) (by decide) (by decide)

/-! ## Claim C3 -/

/-- C3 counterexample: a single-file encrypt batch with undetermined size is
rejected, yet the job-id counter has advanced from 0 to 1 — an identifier
was consumed before the rejection — and the matching streaming decrypt
batch has its two channel pairs constructed (channelPairs 0 to 2) before
validation rejects it. -/
theorem C3_counterexample :
    encryptJob true [⟨none, StreamRep.readable 0, none, none, none⟩] ⟨0, 0⟩
      = (Except.error (PenumbraErr.sizeUndetermined "encrypt"), ⟨1, 0⟩)
  ∧ decryptJob true [⟨none, StreamRep.readable 0, none, none, none⟩] ⟨0, 0⟩
      = (Except.error (PenumbraErr.sizeUndetermined "decrypt"), ⟨1, 2⟩) :=
  ⟨rfl, rfl⟩

/-- C3 (amended): a batch containing an item with undetermined (falsy) size
is rejected whole with the size-undetermined error, on either path for
encrypt and on the streaming path for decrypt, and no results are
produced; however the rejection is not free of resource consumption: the
encrypt loop consumes job identifiers up to and including the offending
item, and the streaming decrypt constructs all 2N channel pairs before its
validation loop runs. -/
theorem C3_reject_size_undetermined (wss : Bool) (files : List PenumbraFile)
    (st : CoordState)
    (hne : files ≠ [])
    (hnb : files.all (fun f => !f.stream.isBuffered) = true)
    (hbad : files.any (fun f => !numTruthy f.size) = true) :
    (encryptJob wss files st).1 = Except.error (PenumbraErr.sizeUndetermined "encrypt")
  ∧ (decryptJob true files st).1 = Except.error (PenumbraErr.sizeUndetermined "decrypt")
  ∧ ((decryptJob true files st).2).channelPairs = st.channelPairs + 2 * files.length :=
  reject_bad_size wss files st hne hnb hbad

/-- A concrete streaming file with no size. -/
def noSizeFile : PenumbraFile := ⟨none, StreamRep.readable 5, none, none, none⟩

theorem C3_reject_size_undetermined_witness :
    (encryptJob false [noSizeFile] ⟨0, 0⟩).1
      = Except.error (PenumbraErr.sizeUndetermined "encrypt")
  ∧ (decryptJob true [noSizeFile] ⟨0, 0⟩).1
      = Except.error (PenumbraErr.sizeUndetermined "decrypt")
  ∧ ((decryptJob true [noSizeFile] ⟨0, 0⟩).2).channelPairs = 0 + 2 * [noSizeFile].length :=
  C3_reject_size_undetermined false [noSizeFile] ⟨0, 0⟩ (by decide) (by decide) (by decide)

/-! ## Claim C4 -/

/-- C4: evaluation at the failing input — the public operations called with
an empty batch resolve with an empty array instead of rejecting, while the
argument-missing guards sit in the internal job functions, which an empty
public call never reaches. -/
theorem C4_empty_batch_eval :
    (get true [] ⟨0, 0⟩).1 = Except.ok []
  ∧ (encrypt true [] ⟨0, 0⟩).1 = Except.ok []
  ∧ (decrypt true [] ⟨0, 0⟩).1 = Except.ok []
  ∧ (getJob true [] ⟨0, 0⟩).1 = Except.error (PenumbraErr.argumentMissing "get")
  ∧ (encryptJob true [] ⟨0, 0⟩).1 = Except.error (PenumbraErr.argumentMissing "encrypt")
  ∧ (decryptJob true [] ⟨0, 0⟩).1 = Except.error (PenumbraErr.argumentMissing "decrypt") :=
  ⟨rfl, rfl, rfl, rfl, rfl, rfl⟩

/-! ## Claim C5 -/

/-- C5 counterexample: an encrypt item carrying the caller-supplied id 5
does not keep it — the encrypt collection loop overwrites it with the fresh
counter value 7. -/
theorem C5_counterexample :
    (encryptJob true [⟨some 5, StreamRep.readable 0, some 10, none, none⟩] ⟨7, 0⟩).1
      = Except.ok [⟨some 7, StreamRep.readable 0, some 10, none, none⟩] :=
  rfl

/-- C5 (amended): encrypt ignores caller-supplied ids — its collection loop
assigns the consecutive counter values j, j+1, ... (strictly increasing,
hence unique for the lifetime of the process-wide counter, which it
advances by N); the decrypt collection loop keeps an item's truthy
caller-supplied id (an id of 0 counts as absent), draws the next counter
value for every other item, and advances the counter once per fresh draw. -/
theorem C5_job_ids (files : List PenumbraFile) (j i : Nat)
    (hall : files.all (fun f => numTruthy f.size) = true)
    (hi : i < files.length) :
    (collectEncrypt files j).ids = List.range' j files.length
  ∧ (collectEncrypt files j).nextID = j + files.length
  ∧ (collectEncrypt files j).err = none
  ∧ List.Pairwise (· < ·) (collectEncrypt files j).ids
  ∧ (collectDecrypt files j).err = none
  ∧ (collectDecrypt files j).nextID = j + (files.countP fun g => !numTruthy g.id)
  ∧ (collectDecrypt files j).ids.get? i = some (decryptIdModel files j i) := by
  have he := collectEncrypt_spec files j hall
  have hd := collectDecrypt_spec files j hall
  refine ⟨by rw [he], by rw [he], by rw [he], ?_, hd.1, hd.2.2.1, hd.2.2.2.2 i hi⟩
  rw [he]
  exact List.pairwise_lt_range' ..

/-- A concrete streaming file with caller-supplied id 3. -/
def idThreeFile : PenumbraFile := ⟨some 3, StreamRep.readable 0, some 64, none, none⟩

/-- A concrete streaming file with no id. -/
def idNoneFile : PenumbraFile := ⟨none, StreamRep.readable 1, some 64, none, none⟩

/-- A concrete streaming file with caller-supplied id 0. -/
def idZeroFile : PenumbraFile := ⟨some 0, StreamRep.readable 2, some 64, none, none⟩

theorem C5_job_ids_witness :
    (collectEncrypt [idThreeFile, idNoneFile, idZeroFile] 10).ids
      = List.range' 10 [idThreeFile, idNoneFile, idZeroFile].length
  ∧ (collectEncrypt [idThreeFile, idNoneFile, idZeroFile] 10).nextID
      = 10 + [idThreeFile, idNoneFile, idZeroFile].length
  ∧ (collectEncrypt [idThreeFile, idNoneFile, idZeroFile] 10).err = none
  ∧ List.Pairwise (· < ·) (collectEncrypt [idThreeFile, idNoneFile, idZeroFile] 10).ids
  ∧ (collectDecrypt [idThreeFile, idNoneFile, idZeroFile] 10).err = none
  ∧ (collectDecrypt [idThreeFile, idNoneFile, idZeroFile] 10).nextID
      = 10 + ([idThreeFile, idNoneFile, idZeroFile].countP fun g => !numTruthy g.id)
  ∧ (collectDecrypt [idThreeFile, idNoneFile, idZeroFile] 10).ids.get? 2
      = some (decryptIdModel [idThreeFile, idNoneFile, idZeroFile] 10 2) :=
  C5_job_ids [idThreeFile, idNoneFile, idZeroFile] 10 2 (by decide) (by decide)

/-! ## Claim C6 -/

/-- C6: the worker-facing get, encrypt and decrypt truncate a mismatched
batch to the common minimum length — exactly min-many jobs are started,
the i-th job pairing the i-th remaining endpoints (and ids/sizes) — the
warning is emitted exactly when the counts disagree, no exception is
raised (the calls are total functions here), and a dropped item appears in
no started job. -/
theorem C6_worker_truncation (wp rp ids sizes : List Nat)
    (rs : List RemoteResource) (i : Nat) :
    (workerGet wp rs).jobs = wp.zip rs
  ∧ (workerGet wp rs).jobs.length = min wp.length rs.length
  ∧ ((workerGet wp rs).warned = true ↔ wp.length ≠ rs.length)
  ∧ (workerDecrypt ids sizes rp wp).jobs.length = min wp.length rp.length
  ∧ ((workerDecrypt ids sizes rp wp).warned = true ↔ wp.length ≠ rp.length)
  ∧ ((workerDecrypt ids sizes rp wp).jobs.get? i
      = if i < min wp.length rp.length
        then some (rp.getD i 0, wp.getD i 0, ids.get? i, sizes.get? i) else none)
  ∧ (workerEncrypt ids sizes rp wp).jobs.length = min wp.length rp.length
  ∧ ((workerEncrypt ids sizes rp wp).warned = true ↔ wp.length ≠ rp.length)
  ∧ ((workerEncrypt ids sizes rp wp).jobs.get? i
      = if i < min wp.length rp.length
        then some (rp.getD i 0, wp.getD i 0, ids.get? i, sizes.get? i) else none) := by
  refine ⟨rfl, List.length_zip ..,
    by simp [workerGet, bne_iff_ne],
    by simp [workerDecrypt],
    by simp [workerDecrypt, bne_iff_ne],
    ?_,
    by simp [workerEncrypt],
    by simp [workerEncrypt, bne_iff_ne],
    ?_⟩
  all_goals
    simp only [workerDecrypt, workerEncrypt, List.get?_eq_getElem?, List.getElem?_map,
      List.getElem?_range]
    by_cases hi : i < min wp.length rp.length
    · simp [hi]
    · simp [hi]
      omega

/-! ## Claim C7 -/

/-- The promise made by trackJobCompletion resolves with the descriptor of
the first completion event matching the searched id (the first binding the
event-bus lookup sees), and that descriptor is in the cache afterwards. -/
theorem trackJobCompletion_spec (id : Nat) (d : PenumbraDecryptionInfo) :
    ∀ (events cfgs : List (Nat × PenumbraDecryptionInfo)),
      configsGet events id = some d →
      (trackJobCompletion id events cfgs).1 = some d
      ∧ configsGet (trackJobCompletion id events cfgs).2 id = some d := by
  intro events
  induction events with
  | nil => intro cfgs h; simp [configsGet] at h
  | cons e rest ih =>
    intro cfgs h
    obtain ⟨i, dd⟩ := e
    by_cases hm : (i == id) = true
    · have hdd : dd = d := by
        simpa [configsGet, List.find?, hm] using h
      subst hdd
      constructor
      · simp [trackJobCompletion, hm]
      · simp [trackJobCompletion, hm, configsGet, List.find?]
    · have h2 : configsGet rest id = some d := by
        simpa [configsGet, List.find?, hm] using h
      have r := ih ((i, dd) :: cfgs) h2
      have hstep : trackJobCompletion id ((i, dd) :: rest) cfgs
          = trackJobCompletion id rest ((i, dd) :: cfgs) := by
        simp [trackJobCompletion, hm]
      rw [hstep]
      exact r

/-- A call that finds the id already recorded in the descriptor cache
resolves immediately from the cache, touching nothing. -/
theorem getDecryptionInfo_cached (id : Nat)
    (cfgs events : List (Nat × PenumbraDecryptionInfo)) (d : PenumbraDecryptionInfo)
    (h : configsGet cfgs id = some d) :
    getDecryptionInfo id cfgs events = (some d, cfgs) := by
  simp [getDecryptionInfo, h]

/-- C7: getDecryptionInfo resolves from the descriptor cache immediately
when the id is recorded there; otherwise it subscribes to the completion
event bus filtered by the id and resolves with the first matching
completion event's descriptor; calling it before completion and calling it
again afterwards yields the same descriptor both times. -/
theorem C7_getDecryptionInfo_stable (id : Nat)
    (cfgs events later c2 : List (Nat × PenumbraDecryptionInfo))
    (d d2 : PenumbraDecryptionInfo)
    (hnc : configsGet cfgs id = none)
    (hev : configsGet events id = some d)
    (hc2 : configsGet c2 id = some d2) :
    (getDecryptionInfo id cfgs events).1 = some d
  ∧ (getDecryptionInfo id (getDecryptionInfo id cfgs events).2 later).1 = some d
  ∧ getDecryptionInfo id c2 later = (some d2, c2) := by
  have hr := trackJobCompletion_spec id d events cfgs hev
  have hfst : getDecryptionInfo id cfgs events = trackJobCompletion id events cfgs := by
    simp [getDecryptionInfo, hnc]
  refine ⟨?_, ?_, getDecryptionInfo_cached id c2 later d2 hc2⟩
  · rw [hfst]
    exact hr.1
  · rw [hfst, getDecryptionInfo_cached id (trackJobCompletion id events cfgs).2 later d hr.2]

/-- A concrete descriptor. -/
def sampleInfo : PenumbraDecryptionInfo := ⟨11, 22, 33⟩

/-- An unrelated concrete descriptor. -/
def otherInfo : PenumbraDecryptionInfo := ⟨44, 55, 66⟩

theorem C7_getDecryptionInfo_stable_witness :
    (getDecryptionInfo 1 [] [(2, otherInfo), (1, sampleInfo)]).1 = some sampleInfo
  ∧ (getDecryptionInfo 1
      (getDecryptionInfo 1 [] [(2, otherInfo), (1, sampleInfo)]).2
      [(1, otherInfo)]).1 = some sampleInfo
  ∧ getDecryptionInfo 1 [(1, sampleInfo)] [(1, otherInfo)]
      = (some sampleInfo, [(1, sampleInfo)]) :=
  C7_getDecryptionInfo_stable 1 [] [(2, otherInfo), (1, sampleInfo)] [(1, otherInfo)]
    [(1, sampleInfo)] sampleInfo sampleInfo (by decide) (by decide) (by decide)

/-! ## Claim C8 -/

/-- C8: getTextOrURI yields one result per file, of kind text exactly when
the file's mimetype is designated viewable text and of kind uri otherwise,
and the final blob cache is the initial cache with exactly the produced
URIs appended, each exactly once, in order. -/
theorem C8_getTextOrURI (viewable : String → Bool)
    (readText mkURL : PenumbraFile → String)
    (files : List PenumbraFile) (cache : List String) :
    ((getTextOrURI viewable readText mkURL files cache).1.map fun r => r.kind)
      = files.map (fun f => if viewable (f.mimetype.getD "") then "text" else "uri")
  ∧ (getTextOrURI viewable readText mkURL files cache).1.length = files.length
  ∧ (getTextOrURI viewable readText mkURL files cache).2
      = cache ++ (getTextOrURI viewable readText mkURL files cache).1.filterMap
          (fun r => if r.kind = "uri" then some r.data else none) := by
  induction files generalizing cache with
  | nil => simp [getTextOrURI]
  | cons f fs ih =>
    by_cases hv : viewable (f.mimetype.getD "") = true
    · have r := ih cache
      refine ⟨?_, ?_, ?_⟩
      · simp [getTextOrURI, hv, r.1]
      · simp [getTextOrURI, hv, r.2.1]
      · simp [getTextOrURI, hv, r.2.2]
    · have hv2 : viewable (f.mimetype.getD "") = false := by simpa using hv
      have r := ih (cache ++ [mkURL f])
      refine ⟨?_, ?_, ?_⟩
      · simp [getTextOrURI, hv2, r.1]
      · simp [getTextOrURI, hv2, r.2.1]
      · simp [getTextOrURI, hv2, r.2.2, List.append_assoc]

/-! ## Claim C9 -/

/-- C9 counterexample: a fallback decrypt batch whose single file declares
size exactly 0 is not rejected — the buffered decrypt path performs no
truthiness check on sizes. -/
theorem C9_counterexample :
    exOk (decryptJob false
      [⟨some 1, StreamRep.readable 0, some 0, none, none⟩] ⟨5, 0⟩) = true := by
  decide

/-- C9 (amended): a declared size of exactly 0 is treated the same as an
undetermined size by the truthiness check, so a batch containing a
zero-size file is rejected with the size-undetermined error by encryptJob
on either path and by the streaming decryptJob; the buffered-fallback
decryptJob however performs no truthiness check and processes the
zero-size batch. -/
theorem C9_zero_size (wss : Bool) (f : PenumbraFile) (files : List PenumbraFile)
    (st : CoordState)
    (hz : f.size = some 0) (hmem : f ∈ files) (hne : files ≠ [])
    (hnb : files.all (fun g => !g.stream.isBuffered) = true)
    (hbound : ∀ g ∈ files, g.size.getD 0 ≤ MAX_ALLOWED_SIZE_MAIN_THREAD) :
    (encryptJob wss files st).1 = Except.error (PenumbraErr.sizeUndetermined "encrypt")
  ∧ (decryptJob true files st).1 = Except.error (PenumbraErr.sizeUndetermined "decrypt")
  ∧ exOk (decryptJob false files st) = true := by
  have hbad : files.any (fun g => !numTruthy g.size) = true := by
    rw [List.any_eq_true]
    exact ⟨f, hmem, by simp [hz, numTruthy]⟩
  have hr := reject_bad_size wss files st hne hnb hbad
  exact ⟨hr.1, hr.2.1, decryptFallback_ok files st hne hbound⟩

/-- A concrete streaming file declaring size 0. -/
def zeroSizeFile : PenumbraFile := ⟨some 1, StreamRep.readable 0, some 0, none, none⟩

theorem C9_zero_size_witness :
    (encryptJob true [zeroSizeFile] ⟨2, 3⟩).1
      = Except.error (PenumbraErr.sizeUndetermined "encrypt")
  ∧ (decryptJob true [zeroSizeFile] ⟨2, 3⟩).1
      = Except.error (PenumbraErr.sizeUndetermined "decrypt")
  ∧ exOk (decryptJob false [zeroSizeFile] ⟨2, 3⟩) = true :=
  C9_zero_size true zeroSizeFile [zeroSizeFile] ⟨2, 3⟩ (by decide) (by decide)
    (by decide) (by decide) (by decide)

/-! ## Claim C10 -/

/-- C10 counterexample: the public encrypt on a batch of a valid streaming
file followed by an ArrayBuffer-backed file rejects the batch, but only
after the valid file's singleton job consumed job id 0 — the counter ends
at 1, so the rejection did not happen before any job id was assigned. -/
theorem C10_counterexample :
    (encrypt true [⟨none, StreamRep.readable 0, some 4, none, none⟩,
                   ⟨none, StreamRep.buffered 4, some 4, none, none⟩] ⟨0, 0⟩).1
      = Except.error PenumbraErr.streamsOnly
  ∧ ((encrypt true [⟨none, StreamRep.readable 0, some 4, none, none⟩,
                    ⟨none, StreamRep.buffered 4, some 4, none, none⟩] ⟨0, 0⟩).2).jobID
      = 1 :=
  ⟨rfl, rfl⟩

/-- C10 (amended): a batch containing an ArrayBuffer-backed file is
rejected with the streams-only error on both execution paths; the
rejecting encryptJob call itself checks this before any id assignment or
channel creation and so leaves the coordinator state untouched, and the
public encrypt wrapper rejects such a batch too — though its earlier valid
items, dispatched as separate singleton jobs, may already have consumed job
ids by the time the rejection surfaces. -/
theorem C10_arraybuffer_reject (wss : Bool) (files : List PenumbraFile)
    (st st2 : CoordState)
    (hne : files ≠ [])
    (hbuf : files.any (fun f => f.stream.isBuffered) = true) :
    encryptJob wss files st = (Except.error PenumbraErr.streamsOnly, st)
  ∧ isResolved (encrypt wss files st2).1 = false := by
  have hemp : files.isEmpty = false := by
    cases files with
    | nil => cases hne rfl
    | cons a l => rfl
  obtain ⟨f, hfmem, hfb⟩ := List.any_eq_true.mp hbuf
  have hbadjob : ∀ s2, isResolved (encryptJob wss [f] s2).1 = false := by
    intro s2
    simp [encryptJob, hfb, isResolved]
  exact ⟨by simp [encryptJob, hemp, hbuf],
    mapJobs_error_of_bad _ f hbadjob files hfmem st2⟩

/-- A concrete ArrayBuffer-backed file. -/
def bufferedFile : PenumbraFile := ⟨none, StreamRep.buffered 4, some 4, none, none⟩

theorem C10_arraybuffer_reject_witness :
    encryptJob false [bufferedFile] ⟨0, 0⟩ = (Except.error PenumbraErr.streamsOnly, ⟨0, 0⟩)
  ∧ isResolved (encrypt false [bufferedFile] ⟨0, 0⟩).1 = false :=
  C10_arraybuffer_reject false [bufferedFile] ⟨0, 0⟩ ⟨0, 0⟩ (by decide) (by decide)

end Penumbra
